import Mathlib

/- Shallow embedding of the instaloader download service: proxy_manager.py
   (class ProxyManager) and main.py (shortcode extraction, the retry loop of
   the /insta handler, artifact materialization, and the cleanup sweep).
   Randomness (random.shuffle, random.choice) is modelled by passing the
   shuffled order and the fallback index as explicit parameters; wall-clock
   time (time.time, datetime.now) is modelled as an integer parameter. -/

/-- Per-proxy usage record: one value of the proxy_stats dict of ProxyManager,
holding last_used and requests_this_min. -/
structure ProxyStats where
  last_used : ℤ
  requests_this_min : Nat
deriving DecidableEq

/-- The proxy_stats dict, as an association list whose updates shadow older
entries; all observations go through List.lookup. -/
abbrev StatsMap := List (String × ProxyStats)

/-- Mutable state of a ProxyManager instance: the proxies list and the
per-proxy usage ledger. -/
structure PMState where
  proxies : List String
  proxy_stats : StatsMap
deriving DecidableEq

/-- One line of the fetched proxy list. A line of shape "ip:port:user:password"
becomes the connection string "http://user:password@ip:port"; blank lines and
lines with a different number of fields are skipped (fetch_proxies, lines
33-40 of proxy_manager.py). -/
def parseProxyLine (line : String) : Option String :=
  let t := line.trim
  if t = "" then none
  else
    match t.splitOn ":" with
    | [ip, port, user, password] =>
        some ("http://" ++ user ++ ":" ++ password ++ "@" ++ ip ++ ":" ++ port)
    | _ => none

/-- Loop body of fetch_proxies: builds the fresh proxies list from the fetched
lines and inserts a zeroed stats record for each proxy string not already
present in the ledger. -/
def fetchGo : List String → StatsMap → List String × StatsMap
  | [], stats => ([], stats)
  | line :: rest, stats =>
    match parseProxyLine line with
    | none => fetchGo rest stats
    | some pstr =>
      let stats1 :=
        match stats.lookup pstr with
        | some _ => stats
        | none => (pstr, ⟨0, 0⟩) :: stats
      ((pstr :: (fetchGo rest stats1).1), (fetchGo rest stats1).2)

/-- ProxyManager.fetch_proxies on the success path, applied to the text body
returned by the proxy source: self.proxies is rebuilt from scratch, while
proxy_stats only gains zeroed entries for unseen proxies. -/
def fetch_proxies (body : String) (s : PMState) : PMState :=
  let r := fetchGo (body.trim.splitOn "\n") s.proxy_stats
  ⟨r.1, r.2⟩

/-- The scan of ProxyManager.get_proxy (lines 57-70): walk the shuffled
proxies list; create a missing stats record as zeroed; reset the window
counter when more than 60 seconds have passed since last use; select the
first proxy whose counter is below 10, incrementing its counter and stamping
last_used. Returns the selected proxy (if any) and the updated ledger. -/
def scanProxies (now : ℤ) : StatsMap → List String → Option String × StatsMap
  | stats, [] => (none, stats)
  | stats, p :: rest =>
    let st0 := (stats.lookup p).getD ⟨0, 0⟩
    let stats1 :=
      match stats.lookup p with
      | some _ => stats
      | none => (p, st0) :: stats
    let reset :=
      if now - st0.last_used > 60 then ((⟨st0.last_used, 0⟩ : ProxyStats), (p, (⟨st0.last_used, 0⟩ : ProxyStats)) :: stats1)
      else (st0, stats1)
    if reset.1.requests_this_min < 10 then
      (some p, (p, ⟨now, reset.1.requests_this_min + 1⟩) :: reset.2)
    else
      scanProxies now reset.2 rest

/-- ProxyManager.get_proxy. The in-place random.shuffle of self.proxies is
modelled by the parameter order (a permutation of the pool chosen by the
caller), which is stored back into the state exactly as the source mutates
self.proxies; the random.choice of the degrade branch is modelled by the
index parameter k. Returns none when the pool is empty. -/
def get_proxy (order : List String) (k : Nat) (now : ℤ) (s : PMState) :
    Option String × PMState :=
  if s.proxies = [] then (none, s)
  else
    match scanProxies now s.proxy_stats order with
    | (some p, stats2) => (some p, ⟨order, stats2⟩)
    | (none, stats2) => (order[k % order.length]?, ⟨order, stats2⟩)

/-- Iterated get_proxy calls: each element of the call list supplies the
shuffled order, the degrade index and the current time of one call. -/
def runSelects : PMState → List (List String × Nat × ℤ) → PMState
  | s, [] => s
  | s, c :: rest => runSelects (get_proxy c.1 c.2.1 c.2.2 s).2 rest

/-- The window counter of a proxy as the scan sees it at time now: zero if the
record is absent or its 60-second window has expired, the stored count
otherwise. -/
def effCount (now : ℤ) (stats : StatsMap) (p : String) : Nat :=
  let st := (stats.lookup p).getD ⟨0, 0⟩
  if now - st.last_used > 60 then 0 else st.requests_this_min

/-- Invariant of the usage ledger: no stored window counter exceeds the
ceiling of 10. -/
def CounterInv (stats : StatsMap) : Prop :=
  ∀ p st, stats.lookup p = some st → st.requests_this_min ≤ 10

/-- Characters that end the shortcode capture of the regex
instagram.com/(reel or p)/( one or more of not / ? # and ). -/
def stopChar (c : Char) : Bool :=
  c == '/' || c == '?' || c == '#' || c == '&'

/-- Characters of "instagram.com/", the shared prefix of both shapes the
extraction regex of main.py line 80 recognizes. -/
def hostChars : List Char :=
  ['i', 'n', 's', 't', 'a', 'g', 'r', 'a', 'm', '.', 'c', 'o', 'm', '/']

/-- Characters of "instagram.com/reel/". -/
def patReel : List Char := hostChars ++ ['r', 'e', 'e', 'l', '/']

/-- Characters of "instagram.com/p/". -/
def patP : List Char := hostChars ++ ['p', '/']

/-- Strip a literal pattern off the front of a string, returning the
remainder when the pattern matches. -/
def stripPrefixChars : List Char → List Char → Option (List Char)
  | [], s => some s
  | _ :: _, [] => none
  | p :: ps, c :: cs => if p = c then stripPrefixChars ps cs else none

/-- The capture group of the regex: the maximal nonempty run of non-stop
characters; an empty run means the match at this position fails. -/
def capOf (rest : List Char) : Option (List Char) :=
  let cap := rest.takeWhile (fun c => !(stopChar c))
  if cap.isEmpty then none else some cap

/-- Attempt of the regex at one start position: the alternation tries "reel"
then "p" (they diverge after "instagram.com/", so at most one prefix fits),
then captures the shortcode. -/
def matchAt (s : List Char) : Option (List Char) :=
  match stripPrefixChars patReel s with
  | some rest => capOf rest
  | none =>
    match stripPrefixChars patP s with
    | some rest => capOf rest
    | none => none

/-- The re.search of main.py line 80: the leftmost position at which the
pattern matches yields the captured shortcode. -/
def extract : List Char → Option (List Char)
  | [] => none
  | c :: t =>
    match matchAt (c :: t) with
    | some cap => some cap
    | none => extract t

/-- Outcome of one fetch attempt of the retry loop, after the exception
structure of main.py lines 126-141: success, a ConnectionException (retried),
another InstaloaderException, or an unexpected exception. -/
inductive FetchOutcome
  | success
  | connErr (msg : String)
  | instaErr (msg : String)
  | otherErr (msg : String)
deriving DecidableEq

/-- How the retry loop of main.py lines 91-141 ends: break on success
(carrying whatever last_exception holds), exhaustion of the 20 attempts, or
an immediately-raised HTTPException. -/
inductive LoopExit
  | done (lastExc : Option String)
  | exhausted (lastExc : Option String)
  | fatal (status : Nat) (detail : String)
deriving DecidableEq

/-- The retry loop, driven by the oracle attempts giving the outcome of each
attempt ordinal: success breaks with last_exception unchanged (the source
never clears it), a ConnectionException records its message and continues,
any other exception raises HTTP 500 at once. -/
def retryLoop (attempts : Nat → FetchOutcome) : Nat → Nat → Option String → LoopExit
  | 0, _, lastExc => .exhausted lastExc
  | fuel + 1, i, lastExc =>
    match attempts i with
    | .success => .done lastExc
    | .connErr m => retryLoop attempts fuel (i + 1) (some m)
    | .instaErr m => .fatal 500 ("Instaloader error: " ++ m)
    | .otherErr m => .fatal 500 m

/-- Occurrence of a needle at some position of the haystack. -/
def subAux (n : List Char) : List Char → Bool
  | [] => (stripPrefixChars n []).isSome
  | c :: t => (stripPrefixChars n (c :: t)).isSome || subAux n t

/-- Substring test, the Python in operator on strings. -/
def containsSub (needle hay : String) : Bool :=
  subAux needle.toList hay.toList

/-- The rate-limit signal check of main.py line 146: the message of the last
connection error contains "401", "429" or "403". -/
def rateMarker (m : String) : Bool :=
  containsSub "401" m || containsSub "429" m || containsSub "403" m

/-- Detail of the 400 response for an unparsable URL. -/
def parseFailDetail : String :=
  "Could not parse shortcode from URL. Ensure it is a valid Instagram post or reel URL."

/-- Detail of the 429 response. -/
def rateLimitDetail : String :=
  "Rate limited by Instagram. Please try again later."

/-- Detail of the 500 response after the attempt ceiling is exhausted with
connection errors (max_retries is 20). -/
def connExhaustDetail (m : String) : String :=
  "Connection error after 20 attempts: " ++ m

/-- The check of main.py lines 144-148, run after the loop whether it ended
by break or by exhaustion: any recorded last_exception turns into a 429 or a
500 response even when a later attempt succeeded. -/
def afterLast : Option String → Except (Nat × String) Unit
  | some m =>
    if rateMarker m then .error (429, rateLimitDetail)
    else .error (500, connExhaustDetail m)
  | none => .ok ()

/-- Combines the loop exit with the post-loop last_exception check. -/
def afterLoop : LoopExit → Except (Nat × String) Unit
  | .fatal s d => .error (s, d)
  | .done lastExc => afterLast lastExc
  | .exhausted lastExc => afterLast lastExc

/-- Environment of the materialization phase (main.py lines 150-231): the
mp4 files found by glob in the target directory, the transcoder outcome
(some message on failure), the txt files present, the result of reading the
first caption file, and the request base URL. -/
structure RunEnv where
  videoFiles : List String
  transcodeErr : Option String
  txtFiles : List String
  captionRead : Option String
  baseUrl : String
deriving DecidableEq

/-- Result of the /insta handler: a 200 payload with play URL and title, or
an HTTPException with status code and detail. -/
inductive HandlerResult
  | ok (play : String) (title : String)
  | err (status : Nat) (detail : String)
deriving DecidableEq

/-- Artifact materialization (main.py lines 150-231), entered only after the
post-loop check passes. The expiry marker has already been written by the
time any of these branches runs; the caller records that fact. Inner
HTTPExceptions are re-raised by the catch-all handler with the same 500
status. -/
def materialize (shortcode : String) (env : RunEnv) : HandlerResult :=
  match env.videoFiles with
  | [] => .err 500 "Video file not found after download."
  | v :: _ =>
    match env.transcodeErr with
    | some m => .err 500 ("Transcoding failed: " ++ m)
    | none =>
      let videoUrl := env.baseUrl ++ "downloads/" ++ shortcode ++ "/" ++ v
      let txts := env.txtFiles.filter (fun f => f ≠ "expiry_timestamp.txt")
      let title :=
        match txts with
        | [] => ""
        | _ :: _ => env.captionRead.getD ""
      .ok videoUrl title

/-- The /insta handler download_insta of main.py: extract the shortcode
(400 on failure, before any fetch attempt), run the retry loop and the
post-loop check, then materialize. The Bool records whether the expiry
marker file was written (first statement of the materialization try block,
line 155, before the video glob and before transcoding). -/
def download_insta (url : String) (attempts : Nat → FetchOutcome) (env : RunEnv) :
    HandlerResult × Bool :=
  match extract url.toList with
  | none => (.err 400 parseFailDetail, false)
  | some sc =>
    match afterLoop (retryLoop attempts 20 0 none) with
    | .error e => (.err e.1 e.2, false)
    | .ok _ => (materialize (String.mk sc) env, true)

/-- One top-level entry under downloads/ as the cleanup sweep sees it: its
name, whether it is a directory, the content of expiry_timestamp.txt when
that file exists, and whether the recursive delete raises. -/
structure DirEntry where
  name : String
  isDir : Bool
  markerContent : Option String
  removeFails : Bool
deriving DecidableEq

/-- Whitespace test for the charwise strip of the marker content. -/
def isWSChar (c : Char) : Bool :=
  c == ' ' || c == '\t' || c == '\n' || c == '\r'

/-- The str.strip applied to the marker content before parsing, written
charwise over the character list. -/
def stripWS (s : String) : String :=
  String.mk (((s.toList.dropWhile isWSChar).reverse.dropWhile isWSChar).reverse)

/-- The per-entry test of cleanup_loop (main.py lines 49-57): a directory
whose marker content, stripped, parses to a timestamp strictly before now.
The parse parameter stands for datetime.fromisoformat, returning none when
it raises. -/
def entryExpired (parse : String → Option ℤ) (now : ℤ) (e : DirEntry) : Bool :=
  e.isDir &&
    (match e.markerContent with
     | some content =>
       (match parse (stripWS content) with
        | some t => decide (now > t)
        | none => false)
     | none => false)

/-- One pass of the cleanup loop body over the listed entries, returning the
entries it deletes. Per-entry exceptions (unparsable marker, failing rmtree)
are caught inside the loop, so each entry is judged independently and a
failing delete leaves its entry in place. -/
def cleanup_once (parse : String → Option ℤ) (now : ℤ) (entries : List DirEntry) :
    List DirEntry :=
  entries.filter (fun e => entryExpired parse now e && !e.removeFails)

/-- Sample stand-in for datetime.fromisoformat used to exercise the sweep on
concrete inputs. -/
def sampleParse : String → Option ℤ
  | "2000-01-01T00:00:00" => some 0
  | "2100-01-01T00:00:00" => some 100
  | _ => none

/-- Error kinds of the spec taxonomy. -/
inductive ErrorKind
  | InvalidInput
  | UpstreamRejected
  | RateLimited
  | UpstreamUnavailable
  | TranscodeFailed
  | Unexpected
deriving DecidableEq

/-- Modelled from the spec (section 7 taxonomy): the stable kind-derived
HTTP status code of each error kind. -/
def specStatus : ErrorKind → Nat
  | .InvalidInput => 400
  | .UpstreamRejected => 404
  | .RateLimited => 429
  | .UpstreamUnavailable => 502
  | .TranscodeFailed => 500
  | .Unexpected => 500

/-- Modelled from the spec: an admissible suffix after the shortcode, namely
nothing or an appended query string (optionally after a trailing slash, as in
the concrete scenario of spec section 8). -/
def querySuffix (suf : List Char) : Prop :=
  suf = [] ∨ suf = ['/'] ∨ (∃ q, suf = '?' :: q) ∨ (∃ q, suf = '/' :: '?' :: q)

/-- Modelled from the spec: a URL "of the form instagram.com/p/(id) or
instagram.com/reel/(id), with an arbitrary query string appended", allowing
the http or https scheme and an optional www subdomain. -/
def claimedForm (url id : List Char) : Prop :=
  ∃ pre kind suf,
    (pre = "http://".toList ∨ pre = "https://".toList ∨
     pre = "http://www.".toList ∨ pre = "https://www.".toList) ∧
    (kind = ['p', '/'] ∨ kind = ['r', 'e', 'e', 'l', '/']) ∧
    id ≠ [] ∧ (∀ c ∈ id, stopChar c = false) ∧
    querySuffix suf ∧
    url = pre ++ hostChars ++ kind ++ id ++ suf

/-- A URL string contains an occurrence of instagram.com/p/ or
instagram.com/reel/ followed by at least one capturable character; this is
what the search-anywhere regex of the source actually keys on. -/
def hasCapture (url : List Char) : Prop :=
  ∃ pre c rest, stopChar c = false ∧
    (url = pre ++ patReel ++ (c :: rest) ∨ url = pre ++ patP ++ (c :: rest))

/-- Concrete environment for evaluating the handler on sample inputs. -/
def demoEnv : RunEnv :=
  ⟨["video.mp4"], none, [], none, "http://localhost:8000/"⟩

/-- Lookup after a shadowing insert, same key. -/
theorem lookup_cons_self {m : StatsMap} {p : String} {st : ProxyStats} :
    ((p, st) :: m).lookup p = some st := by
  rw [List.lookup_cons, beq_self_eq_true]

/-- Lookup after a shadowing insert, different key. -/
theorem lookup_cons_ne {m : StatsMap} {p q : String} {st : ProxyStats} (h : q ≠ p) :
    ((p, st) :: m).lookup q = m.lookup q := by
  rw [List.lookup_cons, beq_eq_false_iff_ne.mpr h]

/-- A proxy with no stored record has effective count zero. -/
theorem effCount_of_lookup_none {now : ℤ} {stats : StatsMap} {p : String}
    (h : stats.lookup p = none) : effCount now stats p = 0 := by
  simp [effCount, h]

/-- A proxy whose window has expired has effective count zero. -/
theorem effCount_of_expired {now : ℤ} {stats : StatsMap} {p : String} {st : ProxyStats}
    (h : stats.lookup p = some st) (hexp : now - st.last_used > 60) :
    effCount now stats p = 0 := by
  simp [effCount, h, hexp]

/-- A proxy with a live window has its stored count as effective count. -/
theorem effCount_of_live {now : ℤ} {stats : StatsMap} {p : String} {st : ProxyStats}
    (h : stats.lookup p = some st) (hexp : ¬ now - st.last_used > 60) :
    effCount now stats p = st.requests_this_min := by
  simp [effCount, h, hexp]

/-- Projection of a literal usage record. -/
@[simp] theorem ProxyStats.last_used_mk (l : ℤ) (r : Nat) :
    (⟨l, r⟩ : ProxyStats).last_used = l := rfl

/-- Projection of a literal usage record. -/
@[simp] theorem ProxyStats.requests_mk (l : ℤ) (r : Nat) :
    (⟨l, r⟩ : ProxyStats).requests_this_min = r := rfl

/-- When the scan selects a proxy, its effective count was below the ceiling,
its record becomes the stamp of this use, and every other key of the ledger
is unchanged. -/
theorem scan_select {now : ℤ} :
    ∀ (order : List String) (stats stats2 : StatsMap) (p : String),
      scanProxies now stats order = (some p, stats2) →
      effCount now stats p < 10 ∧
      stats2.lookup p = some ⟨now, effCount now stats p + 1⟩ ∧
      ∀ q, q ≠ p → stats2.lookup q = stats.lookup q := by
  intro order
  induction order with
  | nil => intro stats stats2 p h; exact absurd h (by simp [scanProxies])
  | cons a rest ih =>
    intro stats stats2 p h
    simp only [scanProxies] at h
    rcases hlk : stats.lookup a with _ | st
    · rw [hlk] at h
      simp only [Option.getD_none, ProxyStats.last_used_mk, ProxyStats.requests_mk] at h
      by_cases hexp : now - (0 : ℤ) > 60
      · rw [if_pos hexp] at h
        simp only [ProxyStats.requests_mk] at h
        rw [if_pos (by norm_num : (0 : Nat) < 10)] at h
        injection h with h1 h2
        injection h1 with h1
        subst h1; subst h2
        refine ⟨?_, ?_, ?_⟩
        · rw [effCount_of_lookup_none hlk]; norm_num
        · rw [effCount_of_lookup_none hlk, lookup_cons_self]
        · intro q hq
          rw [lookup_cons_ne hq, lookup_cons_ne hq, lookup_cons_ne hq]
      · rw [if_neg hexp] at h
        simp only [ProxyStats.requests_mk] at h
        rw [if_pos (by norm_num : (0 : Nat) < 10)] at h
        injection h with h1 h2
        injection h1 with h1
        subst h1; subst h2
        refine ⟨?_, ?_, ?_⟩
        · rw [effCount_of_lookup_none hlk]; norm_num
        · rw [effCount_of_lookup_none hlk, lookup_cons_self]
        · intro q hq
          rw [lookup_cons_ne hq, lookup_cons_ne hq]
    · rw [hlk] at h
      simp only [Option.getD_some] at h
      by_cases hexp : now - st.last_used > 60
      · rw [if_pos hexp] at h
        simp only [ProxyStats.requests_mk] at h
        rw [if_pos (by norm_num : (0 : Nat) < 10)] at h
        injection h with h1 h2
        injection h1 with h1
        subst h1; subst h2
        refine ⟨?_, ?_, ?_⟩
        · rw [effCount_of_expired hlk hexp]; norm_num
        · rw [effCount_of_expired hlk hexp, lookup_cons_self]
        · intro q hq
          rw [lookup_cons_ne hq, lookup_cons_ne hq]
      · rw [if_neg hexp] at h
        by_cases hq10 : st.requests_this_min < 10
        · rw [if_pos hq10] at h
          injection h with h1 h2
          injection h1 with h1
          subst h1; subst h2
          refine ⟨?_, ?_, ?_⟩
          · rw [effCount_of_live hlk hexp]; exact hq10
          · rw [effCount_of_live hlk hexp, lookup_cons_self]
          · intro q hq
            rw [lookup_cons_ne hq]
        · rw [if_neg hq10] at h
          exact ih stats stats2 p h

/-- When the scan selects nobody, the ledger is untouched and every scanned
proxy had a live window at the ceiling. -/
theorem scan_skip {now : ℤ} :
    ∀ (order : List String) (stats stats2 : StatsMap),
      scanProxies now stats order = (none, stats2) →
      stats2 = stats ∧ ∀ p ∈ order, 10 ≤ effCount now stats p := by
  intro order
  induction order with
  | nil =>
    intro stats stats2 h
    simp only [scanProxies] at h
    injection h with h1 h2
    exact ⟨h2.symm, by simp⟩
  | cons a rest ih =>
    intro stats stats2 h
    simp only [scanProxies] at h
    rcases hlk : stats.lookup a with _ | st
    · rw [hlk] at h
      simp only [Option.getD_none, ProxyStats.last_used_mk, ProxyStats.requests_mk] at h
      by_cases hexp : now - (0 : ℤ) > 60
      · rw [if_pos hexp] at h
        simp only [ProxyStats.requests_mk] at h
        rw [if_pos (by norm_num : (0 : Nat) < 10)] at h
        exact absurd (congrArg Prod.fst h) (by simp)
      · rw [if_neg hexp] at h
        simp only [ProxyStats.requests_mk] at h
        rw [if_pos (by norm_num : (0 : Nat) < 10)] at h
        exact absurd (congrArg Prod.fst h) (by simp)
    · rw [hlk] at h
      simp only [Option.getD_some] at h
      by_cases hexp : now - st.last_used > 60
      · rw [if_pos hexp] at h
        simp only [ProxyStats.requests_mk] at h
        rw [if_pos (by norm_num : (0 : Nat) < 10)] at h
        exact absurd (congrArg Prod.fst h) (by simp)
      · rw [if_neg hexp] at h
        by_cases hq10 : st.requests_this_min < 10
        · rw [if_pos hq10] at h
          exact absurd (congrArg Prod.fst h) (by simp)
        · rw [if_neg hq10] at h
          obtain ⟨hst, hall⟩ := ih stats stats2 h
          refine ⟨hst, ?_⟩
          intro p hp
          rcases List.mem_cons.mp hp with rfl | hp
          · rw [effCount_of_live hlk hexp]; omega
          · exact hall p hp

/-- Converse of the skip lemma: a pool whose scanned proxies all sit at the
ceiling with live windows is scanned to the end without any selection or any
ledger change. -/
theorem scan_none_of_ceiling {now : ℤ} :
    ∀ (order : List String) (stats : StatsMap),
      (∀ p ∈ order, 10 ≤ effCount now stats p) →
      scanProxies now stats order = (none, stats) := by
  intro order
  induction order with
  | nil => intro stats _; simp [scanProxies]
  | cons a rest ih =>
    intro stats hall
    have ha := hall a (List.mem_cons_self a rest)
    rcases hlk : stats.lookup a with _ | st
    · rw [effCount_of_lookup_none hlk] at ha; omega
    · by_cases hexp : now - st.last_used > 60
      · rw [effCount_of_expired hlk hexp] at ha; omega
      · have hcount : ¬ st.requests_this_min < 10 := by
          rw [effCount_of_live hlk hexp] at ha; omega
        simp only [scanProxies, hlk, Option.getD_some]
        rw [if_neg hexp, if_neg hcount]
        exact ih stats (fun p hp => hall p (List.mem_cons_of_mem a hp))

/-- One get_proxy call preserves the counter ceiling invariant. -/
theorem get_proxy_inv {order : List String} {k : Nat} {now : ℤ} {s : PMState}
    (h : CounterInv s.proxy_stats) :
    CounterInv (get_proxy order k now s).2.proxy_stats := by
  by_cases hempty : s.proxies = []
  · simpa [get_proxy, hempty] using h
  · rcases hscan : scanProxies now s.proxy_stats order with ⟨r, stats2⟩
    rcases r with _ | p
    · obtain ⟨rfl, _⟩ := scan_skip order s.proxy_stats stats2 hscan
      simpa [get_proxy, hempty, hscan] using h
    · obtain ⟨hlt, hp, hframe⟩ := scan_select order s.proxy_stats stats2 p hscan
      have : CounterInv stats2 := by
        intro q st hq
        by_cases hqp : q = p
        · subst hqp
          rw [hp] at hq
          injection hq with hq
          subst hq
          simp only [ProxyStats.requests_mk]
          omega
        · rw [hframe q hqp] at hq
          exact h q st hq
      simpa [get_proxy, hempty, hscan] using this

/-- C5, part one, generalized over call sequences. -/
theorem runSelects_inv :
    ∀ (calls : List (List String × Nat × ℤ)) (s : PMState),
      CounterInv s.proxy_stats → CounterInv (runSelects s calls).proxy_stats := by
  intro calls
  induction calls with
  | nil => intro s h; exact h
  | cons c rest ih =>
    intro s h
    exact ih _ (get_proxy_inv h)

/-- C5: across any sequence of select calls no stored window counter ever
exceeds the ceiling of 10, and when every candidate of the shuffled pool is
at the ceiling with a live window, the call returns the candidate picked by
the degrade index and leaves every counter untouched. -/
theorem c5_counter_ceiling_and_degrade :
    (∀ (calls : List (List String × Nat × ℤ)) (s : PMState),
        CounterInv s.proxy_stats → CounterInv (runSelects s calls).proxy_stats) ∧
    (∀ (order : List String) (k : Nat) (now : ℤ) (s : PMState),
        s.proxies ≠ [] → order.Perm s.proxies →
        (∀ p ∈ order, ∃ st, s.proxy_stats.lookup p = some st ∧
            10 ≤ st.requests_this_min ∧ ¬ now - st.last_used > 60) →
        get_proxy order k now s = (order[k % order.length]?, ⟨order, s.proxy_stats⟩)) := by
  constructor
  · exact runSelects_inv
  · intro order k now s hne _ hall
    have hceil : ∀ p ∈ order, 10 ≤ effCount now s.proxy_stats p := by
      intro p hp
      obtain ⟨st, hlk, hge, hexp⟩ := hall p hp
      rw [effCount_of_live hlk hexp]
      exact hge
    have hscan := scan_none_of_ceiling order s.proxy_stats hceil
    simp [get_proxy, hne, hscan]

/-- Witness for C5 at concrete inputs: a two-call run from a fresh ledger
keeps the invariant, and a one-proxy pool at the ceiling inside its window
degrades to the random pick with an unchanged ledger. -/
theorem c5_witness :
    CounterInv (runSelects ⟨["a"], []⟩ [(["a"], 0, 0), (["a"], 0, 30)]).proxy_stats ∧
    get_proxy ["a"] 0 30 ⟨["a"], [("a", ⟨0, 10⟩)]⟩ =
      (some "a", ⟨["a"], [("a", ⟨0, 10⟩)]⟩) := by
  constructor
  · exact c5_counter_ceiling_and_degrade.1 [(["a"], 0, 0), (["a"], 0, 30)] ⟨["a"], []⟩
      (fun p st h => nomatch h)
  · have h := c5_counter_ceiling_and_degrade.2 ["a"] 0 30 ⟨["a"], [("a", ⟨0, 10⟩)]⟩
      (by simp) (List.Perm.refl _)
      (by
        intro p hp
        rcases List.mem_singleton.mp hp with rfl
        exact ⟨⟨0, 10⟩, rfl, by norm_num, by norm_num⟩)
    simpa using h

/-- C8: a proxy holding a record whose window has expired is, when this call
selects it, re-stamped with counter exactly 1. -/
theorem c8_stale_window_reset_to_one :
    ∀ (s : PMState) (order : List String) (k : Nat) (now : ℤ) (p : String) (st : ProxyStats),
      order.Perm s.proxies →
      s.proxy_stats.lookup p = some st →
      now - st.last_used > 60 →
      (get_proxy order k now s).1 = some p →
      (get_proxy order k now s).2.proxy_stats.lookup p = some ⟨now, 1⟩ := by
  intro s order k now p st _ hlk hexp hres
  by_cases hempty : s.proxies = []
  · rw [get_proxy] at hres
    rw [if_pos hempty] at hres
    exact absurd hres (by simp)
  · rcases hscan : scanProxies now s.proxy_stats order with ⟨r, stats2⟩
    rcases r with _ | q
    · obtain ⟨rfl, hall⟩ := scan_skip order s.proxy_stats stats2 hscan
      have hmem : p ∈ order := by
        have : order[k % order.length]? = some p := by
          simpa [get_proxy, hempty, hscan] using hres
        exact List.getElem?_mem this
      have := hall p hmem
      rw [effCount_of_expired hlk hexp] at this
      omega
    · have hqp : q = p := by
        have : (some q : Option String) = some p := by
          simpa [get_proxy, hempty, hscan] using hres
        injection this
      subst hqp
      obtain ⟨_, hp, _⟩ := scan_select order s.proxy_stats stats2 q hscan
      rw [effCount_of_expired hlk hexp] at hp
      simpa [get_proxy, hempty, hscan] using hp

/-- Witness for C8: a single stale proxy is selected with its counter re-set
to exactly 1 instead of 8. -/
theorem c8_witness :
    (get_proxy ["a"] 0 100 ⟨["a"], [("a", ⟨0, 7⟩)]⟩).2.proxy_stats.lookup "a" =
      some ⟨100, 1⟩ :=
  c8_stale_window_reset_to_one ⟨["a"], [("a", ⟨0, 7⟩)]⟩ ["a"] 0 100 "a" ⟨0, 7⟩
    (List.Perm.refl _) rfl (by norm_num) (by decide)

/-- Counterexample for C9: a select call on a two-proxy pool, handed the
swapped shuffle order, stores the reordered list back into the pool state;
the proxies list is not left unchanged, because the source shuffles
self.proxies in place rather than a copy. -/
theorem c9_select_reorders_pool_list :
    List.Perm ["b", "a"] ["a", "b"] ∧
    (get_proxy ["b", "a"] 0 0 ⟨["a", "b"], []⟩).2.proxies ≠ ["a", "b"] :=
  ⟨List.Perm.swap "a" "b" [], by decide⟩

/-- C9 as amended: a select call leaves the pool's proxy set intact up to
permutation (the in-place shuffle reorders the stored list), and mutates no
usage record other than the returned proxy's. -/
theorem c9_amended_frame :
    ∀ (s : PMState) (order : List String) (k : Nat) (now : ℤ),
      order.Perm s.proxies →
      (get_proxy order k now s).2.proxies.Perm s.proxies ∧
      ∀ q, (get_proxy order k now s).1 ≠ some q →
        (get_proxy order k now s).2.proxy_stats.lookup q = s.proxy_stats.lookup q := by
  intro s order k now hperm
  by_cases hempty : s.proxies = []
  · simp [get_proxy, hempty, List.Perm.refl]
  · rcases hscan : scanProxies now s.proxy_stats order with ⟨r, stats2⟩
    rcases r with _ | p
    · obtain ⟨rfl, _⟩ := scan_skip order s.proxy_stats stats2 hscan
      simp [get_proxy, hempty, hscan, hperm]
    · obtain ⟨_, _, hframe⟩ := scan_select order s.proxy_stats stats2 p hscan
      refine ⟨by simp [get_proxy, hempty, hscan, hperm], ?_⟩
      intro q hq
      have hqp : q ≠ p := by
        intro hc
        subst hc
        exact hq (by simp [get_proxy, hempty, hscan])
      simpa [get_proxy, hempty, hscan] using hframe q hqp

/-- Witness for C9 as amended: on a fresh two-proxy pool the shuffled order
is a permutation of the pool, and the non-selected proxy's record is
untouched. -/
theorem c9_witness :
    (get_proxy ["b", "a"] 1 5 ⟨["a", "b"], []⟩).2.proxies.Perm ["a", "b"] ∧
    (get_proxy ["b", "a"] 1 5 ⟨["a", "b"], []⟩).2.proxy_stats.lookup "a" = none := by
  have h := c9_amended_frame ⟨["a", "b"], []⟩ ["b", "a"] 1 5 (List.Perm.swap "a" "b" [])
  exact ⟨h.1, (h.2 "a" (by decide)).trans rfl⟩

/-- A record present before a refresh is present and identical afterwards. -/
theorem fetchGo_keep :
    ∀ (lines : List String) (stats : StatsMap) (p : String) (st : ProxyStats),
      stats.lookup p = some st → (fetchGo lines stats).2.lookup p = some st := by
  intro lines
  induction lines with
  | nil => intro stats p st h; exact h
  | cons line rest ih =>
    intro stats p st h
    simp only [fetchGo]
    rcases hpl : parseProxyLine line with _ | pstr
    · exact ih stats p st h
    · rcases hlk : stats.lookup pstr with _ | st2
      · simp only [hlk]
        refine ih _ p st ?_
        have hne : p ≠ pstr := by
          intro hc; subst hc; rw [h] at hlk; exact Option.noConfusion hlk
        rw [lookup_cons_ne hne]
        exact h
      · simp only [hlk]
        exact ih stats p st h

/-- A record present after a refresh was either already present, identical,
or is one of the zeroed records added for unseen proxies. -/
theorem fetchGo_new :
    ∀ (lines : List String) (stats : StatsMap) (p : String) (st : ProxyStats),
      (fetchGo lines stats).2.lookup p = some st →
      stats.lookup p = some st ∨ st = ⟨0, 0⟩ := by
  intro lines
  induction lines with
  | nil => intro stats p st h; exact Or.inl h
  | cons line rest ih =>
    intro stats p st h
    simp only [fetchGo] at h
    rcases hpl : parseProxyLine line with _ | pstr
    · simp only [hpl] at h
      exact ih stats p st h
    · simp only [hpl] at h
      rcases hlk : stats.lookup pstr with _ | st2
      · simp only [hlk] at h
        rcases ih _ p st h with h2 | h2
        · by_cases hpp : p = pstr
          · subst hpp
            rw [lookup_cons_self] at h2
            injection h2 with h2
            exact Or.inr h2.symm
          · rw [lookup_cons_ne hpp] at h2
            exact Or.inl h2
        · exact Or.inr h2
      · simp only [hlk] at h
        exact ih stats p st h

/-- C10: fetch_proxies preserves every existing usage record unchanged and
only ever adds zeroed records for proxies not seen before. -/
theorem c10_refresh_preserves_stats :
    ∀ (body : String) (s : PMState) (p : String),
      (∀ st, s.proxy_stats.lookup p = some st →
        (fetch_proxies body s).proxy_stats.lookup p = some st) ∧
      (∀ st, (fetch_proxies body s).proxy_stats.lookup p = some st →
        s.proxy_stats.lookup p = some st ∨ st = ⟨0, 0⟩) := by
  intro body s p
  constructor
  · intro st h
    exact fetchGo_keep (body.trim.splitOn "\n") s.proxy_stats p st h
  · intro st h
    exact fetchGo_new (body.trim.splitOn "\n") s.proxy_stats p st h

/-- Witness for C10: refreshing over a body that lists an already-known proxy
leaves that proxy's live record with its old counter and timestamp. -/
theorem c10_witness :
    (fetch_proxies "1.2.3.4:8080:u:pw" ⟨[], [("http://u:pw@1.2.3.4:8080", ⟨5, 3⟩)]⟩).proxy_stats.lookup
      "http://u:pw@1.2.3.4:8080" = some ⟨5, 3⟩ :=
  (c10_refresh_preserves_stats "1.2.3.4:8080:u:pw" ⟨[], [("http://u:pw@1.2.3.4:8080", ⟨5, 3⟩)]⟩
    "http://u:pw@1.2.3.4:8080").1 ⟨5, 3⟩ rfl

/-- Stripping a pattern off itself plus a remainder yields the remainder. -/
theorem strip_append : ∀ (pat rest : List Char),
    stripPrefixChars pat (pat ++ rest) = some rest := by
  intro pat
  induction pat with
  | nil => intro rest; rfl
  | cons a t ih => intro rest; simp [stripPrefixChars, ih]

/-- Stripping under a shared prefix reduces to stripping the tails. -/
theorem strip_peel : ∀ (x a b : List Char),
    stripPrefixChars (x ++ a) (x ++ b) = stripPrefixChars a b := by
  intro x
  induction x with
  | nil => intro a b; rfl
  | cons c t ih => intro a b; simp [stripPrefixChars, ih]

/-- A successful strip is an append decomposition. -/
theorem strip_eq_append : ∀ (pat s r : List Char),
    stripPrefixChars pat s = some r → s = pat ++ r := by
  intro pat
  induction pat with
  | nil =>
    intro s r h
    simpa [stripPrefixChars] using h
  | cons a t ih =>
    intro s r h
    cases s with
    | nil => exact absurd h (by simp [stripPrefixChars])
    | cons c cs =>
      by_cases hac : a = c
      · subst hac
        rw [stripPrefixChars, if_pos rfl] at h
        simpa using ih cs r h
      · rw [stripPrefixChars, if_neg hac] at h
        exact absurd h (by simp)

/-- The reel pattern never matches where the p pattern starts. -/
theorem strip_reel_patP (rest : List Char) :
    stripPrefixChars patReel (patP ++ rest) = none := by
  rw [patReel, patP, List.append_assoc,
    strip_peel hostChars ['r', 'e', 'e', 'l', '/'] (['p', '/'] ++ rest)]
  simp only [List.cons_append, List.nil_append]
  simp only [stripPrefixChars]
  rw [if_neg (by decide : ¬ ('r' = 'p'))]

/-- The regex cannot match at a position not starting with the letter i. -/
theorem matchAt_ne {c : Char} (t : List Char) (hc : c ≠ 'i') :
    matchAt (c :: t) = none := by
  have h1 : stripPrefixChars patReel (c :: t) = none := by
    rw [patReel, hostChars, List.cons_append, stripPrefixChars,
      if_neg (fun h => hc h.symm)]
  have h2 : stripPrefixChars patP (c :: t) = none := by
    rw [patP, hostChars, List.cons_append, stripPrefixChars,
      if_neg (fun h => hc h.symm)]
  rw [matchAt, h1, h2]

/-- A successful match at the head of a string is what extract returns. -/
theorem extract_of_matchAt : ∀ (s cap : List Char),
    matchAt s = some cap → extract s = some cap := by
  intro s cap h
  cases s with
  | nil =>
    exact absurd h (by rw [matchAt, (by decide : stripPrefixChars patReel [] = none),
      (by decide : stripPrefixChars patP [] = none)]; simp)
  | cons c t => rw [extract, h]

/-- Characters that cannot start the pattern are skipped by the search. -/
theorem extract_append_skip : ∀ (pre t : List Char),
    (∀ c ∈ pre, c ≠ 'i') → extract (pre ++ t) = extract t := by
  intro pre
  induction pre with
  | nil => intro t _; rfl
  | cons a p ih =>
    intro t h
    rw [List.cons_append, extract, matchAt_ne _ (h a (List.mem_cons_self a p)),
      ih t (fun c hc => h c (List.mem_cons_of_mem a hc))]

/-- The capture of a valid shortcode followed by an admissible suffix is
exactly the shortcode. -/
theorem capOf_append (id suf : List Char) (hid : id ≠ [])
    (hchars : ∀ c ∈ id, stopChar c = false) (hsuf : querySuffix suf) :
    capOf (id ++ suf) = some id := by
  have hall : ∀ c ∈ id, (!(stopChar c)) = true := by
    intro c hc; rw [hchars c hc]; rfl
  have hsufnil : suf.takeWhile (fun c => !(stopChar c)) = [] := by
    rcases hsuf with rfl | rfl | ⟨q, rfl⟩ | ⟨q, rfl⟩
    · rfl
    · rw [List.takeWhile_cons_of_neg]; decide
    · rw [List.takeWhile_cons_of_neg]; decide
    · rw [List.takeWhile_cons_of_neg]; decide
  rw [capOf]
  rw [List.takeWhile_append_of_pos hall, hsufnil, List.append_nil]
  rw [if_neg (by simpa using hid)]

/-- The regex matches at the start of the reel pattern. -/
theorem matchAt_patReel (x : List Char) :
    matchAt (patReel ++ x) = capOf x := by
  rw [matchAt, strip_append]

/-- The regex matches at the start of the p pattern. -/
theorem matchAt_patP (x : List Char) :
    matchAt (patP ++ x) = capOf x := by
  rw [matchAt, strip_reel_patP, strip_append]

/-- The positive half of C4: extraction on a URL of the claimed form yields
exactly the shortcode. -/
theorem claimedForm_extract : ∀ (url id : List Char),
    claimedForm url id → extract url = some id := by
  rintro url id ⟨pre, kind, suf, hpre, hkind, hid, hchars, hsuf, rfl⟩
  have hskip : ∀ c ∈ pre, c ≠ 'i' := by
    rcases hpre with rfl | rfl | rfl | rfl <;> decide
  simp only [List.append_assoc]
  rw [extract_append_skip pre _ hskip]
  rcases hkind with rfl | rfl
  · have hshape : hostChars ++ (['p', '/'] ++ (id ++ suf)) = patP ++ (id ++ suf) := by
      rw [patP, List.append_assoc]
    rw [hshape, extract_of_matchAt _ id]
    rw [matchAt_patP, capOf_append id suf hid hchars hsuf]
  · have hshape : hostChars ++ (['r', 'e', 'e', 'l', '/'] ++ (id ++ suf)) = patReel ++ (id ++ suf) := by
      rw [patReel, List.append_assoc]
    rw [hshape, extract_of_matchAt _ id]
    rw [matchAt_patReel, capOf_append id suf hid hchars hsuf]

/-- A successful match decomposes the string at one of the two patterns with
a capturable first character after it. -/
theorem matchAt_capture : ∀ (s cap : List Char), matchAt s = some cap →
    ∃ c rest, stopChar c = false ∧
      (s = patReel ++ (c :: rest) ∨ s = patP ++ (c :: rest)) := by
  intro s cap h
  rw [matchAt] at h
  have capShape : ∀ (x : List Char), capOf x = some cap →
      ∃ c rest, stopChar c = false ∧ x = c :: rest := by
    intro x hx
    cases x with
    | nil => exact absurd hx (by rw [capOf]; simp)
    | cons c r =>
      rcases hstop : stopChar c with _ | _
      · exact ⟨c, r, hstop, rfl⟩
      · rw [capOf, List.takeWhile_cons_of_neg (by rw [hstop]; decide)] at hx
        exact absurd hx (by simp)
  rcases hr : stripPrefixChars patReel s with _ | x
  · rw [hr] at h
    rcases hp : stripPrefixChars patP s with _ | x
    · rw [hp] at h; exact absurd h (by simp)
    · rw [hp] at h
      obtain ⟨c, rest, hc, rfl⟩ := capShape x h
      exact ⟨c, rest, hc, Or.inr (strip_eq_append _ _ _ hp)⟩
  · rw [hr] at h
    obtain ⟨c, rest, hc, rfl⟩ := capShape x h
    exact ⟨c, rest, hc, Or.inl (strip_eq_append _ _ _ hr)⟩

/-- Whenever extraction succeeds, the URL contains one of the two patterns
followed by a capturable character. -/
theorem extract_capture : ∀ (url cap : List Char),
    extract url = some cap → hasCapture url := by
  intro url
  induction url with
  | nil => intro cap h; exact absurd h (by rw [extract]; simp)
  | cons a t ih =>
    intro cap h
    rw [extract] at h
    rcases hm : matchAt (a :: t) with _ | cap2
    · rw [hm] at h
      obtain ⟨pre, c, rest, hc, hcase⟩ := ih cap h
      refine ⟨a :: pre, c, rest, hc, ?_⟩
      rcases hcase with hcase | hcase
      · exact Or.inl (by simp [hcase])
      · exact Or.inr (by simp [hcase])
    · obtain ⟨c, rest, hc, hcase⟩ := matchAt_capture _ cap2 hm
      exact ⟨[], c, rest, hc, by simpa using hcase⟩

/-- Extraction succeeds on any string containing one of the two patterns
followed by a capturable character. -/
theorem hasCapture_extract : ∀ (url : List Char),
    hasCapture url → ∃ cap, extract url = some cap := by
  intro url ⟨pre, c, rest, hc, hcase⟩
  have hmain : ∀ t : List Char,
      (t = patReel ++ (c :: rest) ∨ t = patP ++ (c :: rest)) →
      ∃ cap, extract t = some cap := by
    rintro t (rfl | rfl)
    · refine ⟨c :: rest.takeWhile (fun x => !(stopChar x)), extract_of_matchAt _ _ ?_⟩
      rw [matchAt_patReel, capOf, List.takeWhile_cons_of_pos (by rw [hc]; rfl)]
      simp
    · refine ⟨c :: rest.takeWhile (fun x => !(stopChar x)), extract_of_matchAt _ _ ?_⟩
      rw [matchAt_patP, capOf, List.takeWhile_cons_of_pos (by rw [hc]; rfl)]
      simp
  have hlift : ∀ (p t : List Char), (∃ cap, extract t = some cap) →
      ∃ cap, extract (p ++ t) = some cap := by
    intro p
    induction p with
    | nil => intro t h; exact h
    | cons a q ih =>
      intro t h
      obtain ⟨cap2, hcap2⟩ := ih t h
      rcases hm : matchAt (a :: (q ++ t)) with _ | cap3
      · exact ⟨cap2, by rw [List.cons_append, extract, hm, hcap2]⟩
      · exact ⟨cap3, by rw [List.cons_append, extract, hm]⟩
  rcases hcase with hcase | hcase
  · rw [List.append_assoc] at hcase
    subst hcase
    exact hlift pre _ (hmain _ (Or.inl rfl))
  · rw [List.append_assoc] at hcase
    subst hcase
    exact hlift pre _ (hmain _ (Or.inr rfl))

/-- Counterexample for C4: a URL on a foreign host that merely contains
"instagram.com/p/abc" as a substring is not of the claimed form, yet
extraction succeeds on it (re.search matches anywhere), so the request is
not rejected as invalid input. -/
theorem c4_foreign_host_url_extracts :
    extract "https://notinstagram.com/p/abc".toList = some ['a', 'b', 'c'] ∧
    ¬ ∃ id, claimedForm "https://notinstagram.com/p/abc".toList id := by
  refine ⟨by decide, ?_⟩
  rintro ⟨id, pre, kind, suf, hpre, hkind, -, -, -, heq⟩
  have hpfx : (pre ++ hostChars) <+: "https://notinstagram.com/p/abc".toList :=
    ⟨kind ++ id ++ suf, by rw [heq]; simp [List.append_assoc]⟩
  rcases hpre with rfl | rfl | rfl | rfl
  · exact absurd hpfx (by decide)
  · exact absurd hpfx (by decide)
  · exact absurd hpfx (by decide)
  · exact absurd hpfx (by decide)

/-- C4 as amended: extraction yields exactly the shortcode on every URL of
the claimed form; extraction succeeds on every URL containing an occurrence
of instagram.com/p/ or instagram.com/reel/ followed by a capturable
character (such URLs are accepted, never rejected), and only on those; and
it fails — rejecting the request with 400 no matter what the fetch oracle
would have answered — precisely on the URLs with no such occurrence. -/
theorem c4_amended_extraction :
    (∀ (url id : List Char), claimedForm url id → extract url = some id) ∧
    (∀ (url : List Char), hasCapture url → ∃ cap, extract url = some cap) ∧
    (∀ (url cap : List Char), extract url = some cap → hasCapture url) ∧
    (∀ (u : String), ¬ hasCapture u.toList →
      extract u.toList = none ∧
      ∀ (attempts : Nat → FetchOutcome) (env : RunEnv),
        download_insta u attempts env = (.err 400 parseFailDetail, false)) := by
  refine ⟨claimedForm_extract, hasCapture_extract, extract_capture, ?_⟩
  intro u hnc
  have hnone : extract u.toList = none := by
    rcases hx : extract u.toList with _ | cap
    · rfl
    · exact absurd (extract_capture _ cap hx) hnc
  exact ⟨hnone, fun attempts env => by rw [download_insta, hnone]⟩

/-- Witness for C4 as amended: a well-formed reel URL with a trailing query
string extracts its shortcode, a foreign-host URL embedding the pattern in
its query string is accepted (extraction succeeds), and a URL with no
occurrence of the pattern is answered 400 without consulting the fetch
oracle. -/
theorem c4_amended_witness :
    extract "https://www.instagram.com/reel/XY/?a=1".toList = some ['X', 'Y'] ∧
    (∃ cap, extract "https://evil.com/?u=instagram.com/p/xyz".toList = some cap) ∧
    download_insta "https://example.com/watch?v=1" (fun _ => .success) demoEnv =
      (.err 400 parseFailDetail, false) := by
  refine ⟨?_, ?_, ?_⟩
  · refine c4_amended_extraction.1 _ ['X', 'Y']
      ⟨"https://www.".toList, ['r', 'e', 'e', 'l', '/'], "/?a=1".toList,
        Or.inr (Or.inr (Or.inr rfl)), Or.inr rfl, by decide, by decide,
        Or.inr (Or.inr (Or.inr ⟨['a', '=', '1'], by decide⟩)), by decide⟩
  · exact c4_amended_extraction.2.1 _
      ⟨"https://evil.com/?u=".toList, 'x', ['y', 'z'], by decide,
        Or.inr (by decide)⟩
  · refine (c4_amended_extraction.2.2.2 "https://example.com/watch?v=1" ?_).2
      (fun _ => .success) demoEnv
    intro hc
    obtain ⟨cap, hcap⟩ := c4_amended_extraction.2.1 _ hc
    rw [(by decide : extract "https://example.com/watch?v=1".toList = none)] at hcap
    exact Option.noConfusion hcap

/-- Status code of a handler result, when it is an error. -/
def statusOf : HandlerResult → Option Nat
  | .ok _ _ => none
  | .err s _ => some s

/-- When every attempt up to the ceiling fails as a connection error, the
loop ends exhausted carrying the message of attempt 19. -/
theorem retryLoop_all_conn (attempts : Nat → FetchOutcome) (msgs : Nat → String) :
    ∀ (fuel i : Nat) (prev : Option String), 0 < fuel → i + fuel = 20 →
      (∀ j, j < 20 → attempts j = .connErr (msgs j)) →
      retryLoop attempts fuel i prev = .exhausted (some (msgs 19)) := by
  intro fuel
  induction fuel with
  | zero => intro i prev h0 _ _; omega
  | succ f ih =>
    intro i prev _ hsum hall
    simp only [retryLoop, hall i (by omega)]
    rcases Nat.eq_zero_or_pos f with rfl | hf
    · have h19 : i = 19 := by omega
      subst h19
      rfl
    · exact ih (i + 1) (some (msgs i)) hf (by omega) hall

/-- The loop only raises status 500 from inside an attempt. -/
theorem retryLoop_fatal_500 (attempts : Nat → FetchOutcome) :
    ∀ (fuel i : Nat) (prev : Option String) (s : Nat) (d : String),
      retryLoop attempts fuel i prev = .fatal s d → s = 500 := by
  intro fuel
  induction fuel with
  | zero =>
    intro i prev s d h
    exact absurd h (by simp [retryLoop])
  | succ f ih =>
    intro i prev s d h
    rw [retryLoop] at h
    rcases ha : attempts i with _ | m | m | m <;> rw [ha] at h
    · exact absurd h (by simp)
    · exact ih (i + 1) (some m) s d h
    · injection h with h1 _; exact h1.symm
    · injection h with h1 _; exact h1.symm

/-- The post-loop check only raises 429 or 500. -/
theorem afterLast_error_status (l : Option String) (s : Nat) (d : String) :
    afterLast l = .error (s, d) → s = 429 ∨ s = 500 := by
  rcases l with _ | m
  · intro h; exact absurd h (by simp [afterLast])
  · rw [afterLast]
    by_cases hm : rateMarker m = true
    · rw [if_pos hm]
      intro h
      injection h with h
      injection h with h1 _
      exact Or.inl h1.symm
    · rw [if_neg hm]
      intro h
      injection h with h
      injection h with h1 _
      exact Or.inr h1.symm

/-- The materialization phase only raises status 500. -/
theorem materialize_err_500 (sc : String) (env : RunEnv) (s : Nat) (d : String) :
    materialize sc env = .err s d → s = 500 := by
  rw [materialize]
  rcases hv : env.videoFiles with _ | ⟨v, vs⟩
  · intro h; injection h with h1 _; exact h1.symm
  · rcases ht : env.transcodeErr with _ | m
    · intro h; exact absurd h (by simp)
    · intro h; injection h with h1 _; exact h1.symm

/-- C1: the code raises an error even when a later attempt succeeded. With
attempt 1 failing as a connection error and attempt 2 succeeding, the loop
breaks on success, yet the handler answers 500 instead of returning the
playback descriptor, because last_exception is never cleared. -/
theorem c1_success_after_connection_failure_still_errors :
    (fun i => if i = 0 then FetchOutcome.connErr "connection refused" else .success) 1 =
      FetchOutcome.success ∧
    download_insta "https://www.instagram.com/p/ABC"
      (fun i => if i = 0 then FetchOutcome.connErr "connection refused" else .success)
      demoEnv = (.err 500 (connExhaustDetail "connection refused"), false) :=
  ⟨rfl, by decide⟩

/-- Counterexample for C2: a run whose transcoder fails still has its expiry
marker written (the source writes it before transcoding), and a sweep after
the marker's timestamp deletes such a directory. -/
theorem c2_marker_written_despite_transcode_failure :
    download_insta "https://www.instagram.com/p/ABC" (fun _ => FetchOutcome.success)
      ⟨["video.mp4"], some "ffmpeg error", [], none, "http://localhost:8000/"⟩ =
      (.err 500 "Transcoding failed: ffmpeg error", true) ∧
    cleanup_once sampleParse 50 [⟨"ABC", true, some "2000-01-01T00:00:00", false⟩] =
      [⟨"ABC", true, some "2000-01-01T00:00:00", false⟩] :=
  ⟨by decide, by decide⟩

/-- C2 as amended: the expiry marker is written before transcoding runs, so
a run whose transcoder fails answers 500 with the marker already on disk,
and a later sweep past the marker's timestamp deletes the directory. -/
theorem c2_amended_marker_before_transcode :
    ∀ (url : String) (attempts : Nat → FetchOutcome) (env : RunEnv)
      (sc : List Char) (m v : String) (vs : List String),
      extract url.toList = some sc →
      afterLoop (retryLoop attempts 20 0 none) = Except.ok () →
      env.videoFiles = v :: vs →
      env.transcodeErr = some m →
      (download_insta url attempts env =
        (.err 500 ("Transcoding failed: " ++ m), true) ∧
       ∀ (parse : String → Option ℤ) (now : ℤ) (entries : List DirEntry)
         (e : DirEntry) (c : String) (t : ℤ), e ∈ entries →
         e.isDir = true → e.removeFails = false → e.markerContent = some c →
         parse (stripWS c) = some t → now > t →
         e ∈ cleanup_once parse now entries) := by
  intro url attempts env sc m v vs hsc hok hv ht
  constructor
  · simp only [download_insta, hsc, hok, materialize, hv, ht]
  · intro parse now entries e c t he hdir hrf hmc hp hnow
    rw [cleanup_once, List.mem_filter]
    refine ⟨he, ?_⟩
    simp [entryExpired, hdir, hmc, hp, hrf, hnow]

/-- Witness for C2 as amended: a concrete failing-transcode run leaves the
marker, and the concrete sweep at time 50 deletes the marked directory. -/
theorem c2_amended_witness :
    download_insta "https://www.instagram.com/p/ABC" (fun _ => FetchOutcome.success)
      ⟨["video.mp4"], some "boom", [], none, "http://localhost:8000/"⟩ =
      (.err 500 ("Transcoding failed: " ++ "boom"), true) ∧
    (⟨"ABC", true, some "2000-01-01T00:00:00", false⟩ : DirEntry) ∈
      cleanup_once sampleParse 50 [⟨"ABC", true, some "2000-01-01T00:00:00", false⟩] := by
  have h := c2_amended_marker_before_transcode "https://www.instagram.com/p/ABC"
    (fun _ => FetchOutcome.success)
    ⟨["video.mp4"], some "boom", [], none, "http://localhost:8000/"⟩
    ['A', 'B', 'C'] "boom" "video.mp4" [] (by decide) rfl rfl rfl
  exact ⟨h.1, h.2 sampleParse 50 _ _ "2000-01-01T00:00:00" 0
    (List.mem_singleton.mpr rfl) rfl rfl rfl (by decide) (by norm_num)⟩

/-- Counterexample for C6: when all 20 attempts fail as connection errors
with no 401, 403 or 429 signal in the last message, the handler answers 500,
not the 502 that the UpstreamUnavailable kind of the spec taxonomy maps to. -/
theorem c6_exhausted_conn_yields_500_not_502 :
    statusOf (download_insta "https://www.instagram.com/p/ABC"
        (fun _ => FetchOutcome.connErr "Connection timed out") demoEnv).1 = some 500 ∧
    statusOf (download_insta "https://www.instagram.com/p/ABC"
        (fun _ => FetchOutcome.connErr "Connection timed out") demoEnv).1 ≠
      some (specStatus .UpstreamUnavailable) :=
  ⟨by decide, by decide⟩

/-- C6 as amended: with every attempt failing as a connection error, the
handler answers 429 when the last message carries a 401, 429 or 403 signal,
and otherwise 500 with the connection-exhaustion detail (not 502). -/
theorem c6_amended_exhaustion_statuses :
    ∀ (url : String) (sc : List Char) (attempts : Nat → FetchOutcome)
      (env : RunEnv) (msgs : Nat → String),
      extract url.toList = some sc →
      (∀ j, j < 20 → attempts j = .connErr (msgs j)) →
      (download_insta url attempts env).1 =
        (if rateMarker (msgs 19) then HandlerResult.err 429 rateLimitDetail
         else .err 500 (connExhaustDetail (msgs 19))) := by
  intro url sc attempts env msgs hsc hall
  have hloop := retryLoop_all_conn attempts msgs 20 0 none (by omega) (by omega) hall
  by_cases hm : rateMarker (msgs 19) = true
  · simp only [download_insta, hsc, hloop, afterLoop, afterLast, if_pos hm]
  · simp only [download_insta, hsc, hloop, afterLoop, afterLast, if_neg hm]

/-- Witness for C6: twenty connection failures whose last message carries a
429 signal produce the 429 answer. -/
theorem c6_witness :
    (download_insta "https://www.instagram.com/p/ABC"
      (fun _ => FetchOutcome.connErr "429 Too Many Requests") demoEnv).1 =
      HandlerResult.err 429 rateLimitDetail := by
  have h := c6_amended_exhaustion_statuses "https://www.instagram.com/p/ABC"
    ['A', 'B', 'C'] (fun _ => FetchOutcome.connErr "429 Too Many Requests") demoEnv
    (fun _ => "429 Too Many Requests") (by decide) (fun j _ => rfl)
  rw [h, if_pos (by decide)]

/-- Counterexample for C3: a non-connection fetch failure (the not-found or
private-post case) is answered with status 500, not the 404 the claim's
kind-derived mapping assigns to UpstreamRejected. -/
theorem c3_not_found_maps_to_500_not_404 :
    statusOf (download_insta "https://www.instagram.com/p/ABC"
        (fun _ => FetchOutcome.instaErr "Fetching Post metadata failed.") demoEnv).1 =
      some 500 ∧
    statusOf (download_insta "https://www.instagram.com/p/ABC"
        (fun _ => FetchOutcome.instaErr "Fetching Post metadata failed.") demoEnv).1 ≠
      some (specStatus .UpstreamRejected) :=
  ⟨by decide, by decide⟩

/-- C3 as amended: every failure of the handler carries status 400, 429 or
500 — never 404 or 502 — with 400 for an unparsable URL, the fatal branch
passing its own 500 through, recorded connection failures mapping to 429
when marked and 500 otherwise, and the no-video and transcode failures
answering 500. -/
theorem c3_amended_status_mapping :
    ∀ (url : String) (attempts : Nat → FetchOutcome) (env : RunEnv),
      (∀ s d, (download_insta url attempts env).1 = .err s d →
        s = 400 ∨ s = 429 ∨ s = 500) ∧
      (extract url.toList = none →
        (download_insta url attempts env).1 = .err 400 parseFailDetail) ∧
      (∀ sc s d, extract url.toList = some sc →
        retryLoop attempts 20 0 none = .fatal s d →
        (download_insta url attempts env).1 = .err s d) ∧
      (∀ sc m, extract url.toList = some sc →
        (retryLoop attempts 20 0 none = .done (some m) ∨
         retryLoop attempts 20 0 none = .exhausted (some m)) →
        (download_insta url attempts env).1 =
          (if rateMarker m then .err 429 rateLimitDetail
           else .err 500 (connExhaustDetail m))) ∧
      (∀ sc, extract url.toList = some sc →
        afterLoop (retryLoop attempts 20 0 none) = .ok () →
        env.videoFiles = [] →
        (download_insta url attempts env).1 =
          .err 500 "Video file not found after download.") ∧
      (∀ sc m v vs, extract url.toList = some sc →
        afterLoop (retryLoop attempts 20 0 none) = .ok () →
        env.videoFiles = v :: vs → env.transcodeErr = some m →
        (download_insta url attempts env).1 =
          .err 500 ("Transcoding failed: " ++ m)) := by
  intro url attempts env
  refine ⟨?_, ?_, ?_, ?_, ?_, ?_⟩
  · intro s d h
    rcases hx : extract url.toList with _ | sc
    · simp only [download_insta, hx] at h
      injection h with h1 _
      exact Or.inl h1.symm
    · simp only [download_insta, hx] at h
      rcases he : retryLoop attempts 20 0 none with lastExc | lastExc | ⟨s2, d2⟩
      · rw [he] at h
        simp only [afterLoop] at h
        rcases lastExc with _ | m2
        · simp only [afterLast] at h
          exact Or.inr (Or.inr (materialize_err_500 _ env s d h))
        · rcases hst : afterLast (some m2) with e2 | u
          · rw [hst] at h
            injection h with h1 _
            rcases e2 with ⟨s2, d2⟩
            have := afterLast_error_status (some m2) s2 d2 hst
            have hs : s2 = s := h1
            subst hs
            exact Or.inr this
          · exact absurd hst (by simp [afterLast]; split <;> simp)
      · rw [he] at h
        simp only [afterLoop] at h
        rcases lastExc with _ | m2
        · simp only [afterLast] at h
          exact Or.inr (Or.inr (materialize_err_500 _ env s d h))
        · rcases hst : afterLast (some m2) with e2 | u
          · rw [hst] at h
            injection h with h1 _
            rcases e2 with ⟨s2, d2⟩
            have := afterLast_error_status (some m2) s2 d2 hst
            have hs : s2 = s := h1
            subst hs
            exact Or.inr this
          · exact absurd hst (by simp [afterLast]; split <;> simp)
      · rw [he] at h
        simp only [afterLoop] at h
        injection h with h1 _
        have := retryLoop_fatal_500 attempts 20 0 none s2 d2 he
        subst this
        exact Or.inr (Or.inr h1.symm)
  · intro hx
    simp only [download_insta, hx]
  · intro sc s d hx he
    simp only [download_insta, hx, he, afterLoop]
  · intro sc m hx he
    by_cases hm : rateMarker m = true
    · rcases he with he | he <;>
        simp only [download_insta, hx, he, afterLoop, afterLast, if_pos hm]
    · rcases he with he | he <;>
        simp only [download_insta, hx, he, afterLoop, afterLast, if_neg hm]
  · intro sc hx hok hv
    simp only [download_insta, hx, hok, materialize, hv]
  · intro sc m v vs hx hok hv ht
    simp only [download_insta, hx, hok, materialize, hv, ht]

/-- Witness for C3 as amended, instantiating the unparsable-URL, 429-marked
exhaustion, and missing-video conjuncts at concrete inputs. -/
theorem c3_amended_witness :
    (download_insta "https://example.com/" (fun _ => FetchOutcome.success) demoEnv).1 =
      HandlerResult.err 400 parseFailDetail ∧
    (download_insta "https://www.instagram.com/p/ABC"
        (fun _ => FetchOutcome.connErr "HTTP 403 Forbidden") demoEnv).1 =
      HandlerResult.err 429 rateLimitDetail ∧
    (download_insta "https://www.instagram.com/p/ABC" (fun _ => FetchOutcome.success)
        ⟨[], none, [], none, "http://localhost:8000/"⟩).1 =
      HandlerResult.err 500 "Video file not found after download." := by
  refine ⟨?_, ?_, ?_⟩
  · exact (c3_amended_status_mapping "https://example.com/" (fun _ => FetchOutcome.success)
      demoEnv).2.1 (by decide)
  · have h := (c3_amended_status_mapping "https://www.instagram.com/p/ABC"
      (fun _ => FetchOutcome.connErr "HTTP 403 Forbidden") demoEnv).2.2.2.1
      ['A', 'B', 'C'] "HTTP 403 Forbidden" (by decide)
      (Or.inr (retryLoop_all_conn _ (fun _ => "HTTP 403 Forbidden") 20 0 none
        (by omega) (by omega) (fun j _ => rfl)))
    rw [h, if_pos (by decide)]
  · exact (c3_amended_status_mapping "https://www.instagram.com/p/ABC"
      (fun _ => FetchOutcome.success) ⟨[], none, [], none, "http://localhost:8000/"⟩).2.2.2.2.1
      ['A', 'B', 'C'] (by decide) rfl rfl

/-- C7: one sweep deletes exactly the directories whose marker parses to a
timestamp strictly in the past (undeletable entries aside), judging each
entry independently so one entry's failure never aborts the rest. -/
theorem c7_sweep_deletes_iff_expired :
    ∀ (parse : String → Option ℤ) (now : ℤ) (entries : List DirEntry),
      (∀ e ∈ entries, e.removeFails = false →
        (e ∈ cleanup_once parse now entries ↔
          e.isDir = true ∧ ∃ c t, e.markerContent = some c ∧
            parse (stripWS c) = some t ∧ now > t)) ∧
      (∀ l₁ l₂ : List DirEntry, cleanup_once parse now (l₁ ++ l₂) =
        cleanup_once parse now l₁ ++ cleanup_once parse now l₂) := by
  intro parse now entries
  constructor
  · intro e he hrf
    rw [cleanup_once, List.mem_filter]
    rcases hmc : e.markerContent with _ | c
    · simp [entryExpired, hrf, hmc, he]
    · rcases hp : parse (stripWS c) with _ | t
      · simp [entryExpired, hrf, hmc, hp, he]
      · rcases hdir : e.isDir with _ | _
        · simp [entryExpired, hrf, hmc, hp, hdir, he]
        · simp [entryExpired, hrf, hmc, hp, hdir, he]
  · intro l₁ l₂
    rw [cleanup_once, cleanup_once, cleanup_once, List.filter_append]

/-- Witness for C7: at sweep time 50 the past-marked directory is deleted
while the future-marked one, the markerless one and the plain file survive,
and the sweep of an appended listing splits pointwise. -/
theorem c7_witness :
    ((⟨"old", true, some "2000-01-01T00:00:00", false⟩ : DirEntry) ∈
      cleanup_once sampleParse 50
        [⟨"old", true, some "2000-01-01T00:00:00", false⟩,
         ⟨"new", true, some "2100-01-01T00:00:00", false⟩,
         ⟨"bare", true, none, false⟩]) ∧
    ¬ ((⟨"new", true, some "2100-01-01T00:00:00", false⟩ : DirEntry) ∈
      cleanup_once sampleParse 50
        [⟨"old", true, some "2000-01-01T00:00:00", false⟩,
         ⟨"new", true, some "2100-01-01T00:00:00", false⟩,
         ⟨"bare", true, none, false⟩]) ∧
    cleanup_once sampleParse 50
        ([⟨"old", true, some "2000-01-01T00:00:00", false⟩] ++ [⟨"bare", true, none, false⟩]) =
      cleanup_once sampleParse 50 [⟨"old", true, some "2000-01-01T00:00:00", false⟩] ++
        cleanup_once sampleParse 50 [⟨"bare", true, none, false⟩] := by
  refine ⟨?_, ?_, ?_⟩
  · exact ((c7_sweep_deletes_iff_expired sampleParse 50 _).1 _ (by decide) rfl).mpr
      ⟨rfl, "2000-01-01T00:00:00", 0, rfl, by decide, by norm_num⟩
  · intro hmem
    have h := ((c7_sweep_deletes_iff_expired sampleParse 50 _).1 _ (by decide) rfl).mp hmem
    obtain ⟨-, c, t, hc, hp, hgt⟩ := h
    injection hc with hc
    subst hc
    rw [(by decide : sampleParse (stripWS "2100-01-01T00:00:00") = some 100)] at hp
    injection hp with hp
    subst hp
    omega
  · exact (c7_sweep_deletes_iff_expired sampleParse 50 []).2 _ _
